import Mathlib

/-!
Shallow embedding of the OptiScope portfolio analytics engine.

Sources embedded:
- server/src/services/analytics.ts (classifier, aggregator)
- server/src/models/analytics.ts (snapshot store)
- server/src/routes/analytics.ts (summary / recalculate orchestration)
- server/src/tasks/analytics.ts and the cron wrapper in server/src/index.ts
  (scheduled batch recomputation)

Modelling conventions:
- JavaScript numbers are modelled as rationals; Number(x.toFixed(2)) is
  modelled as rounding half towards positive infinity at 2 decimals, and
  Math.round as floor of x + 1/2, both matching the ECMAScript tie rule
  of picking the larger candidate.
- A date string is modelled by JDate: either it parses to a millisecond
  timestamp (valid ms) or new Date(s).getTime() is NaN (invalid).
  A null date field is Option.none.
- A JavaScript Map is modelled as an association list with insertion-order
  set/get semantics (jsMapGet / jsMapSet).
- Array.prototype.sort with a numeric comparator cmp is a stable sort by
  the boolean relation cmp a b is nonpositive; it is modelled by a stable
  insertion sort (jsStableSort). A comparator that returns NaN (an invalid
  date on either side) orders neither way.
- Database reads/writes become explicit state passing over a list of
  stored snapshot rows; the trade history read becomes a list argument.
- Inert record fields (ids, notes, created/updated timestamps) that the
  analytics engine never reads are omitted from the embedded records.
-/

namespace OptiScope

/-- Option type of a leg, leg_type column: call or put. -/
inductive OptionType where
  | call
  | put
deriving DecidableEq, Repr

/-- Position of a leg, position column: long or short. -/
inductive Position where
  | long
  | short
deriving DecidableEq, Repr

/-- Trade lifecycle status column: open, closed or rolled. -/
inductive TradeStatus where
  | isOpen
  | isClosed
  | rolled
deriving DecidableEq, Repr

/-- A date string as the engine sees it: new Date(s).getTime() either
yields a millisecond timestamp or NaN (unparseable). -/
inductive JDate where
  | valid (ms : ℤ)
  | invalid
deriving DecidableEq, Repr

/-- new Date(s).getTime(), with none standing for NaN. -/
def JDate.getTime : JDate → Option ℤ
  | valid ms => some ms
  | invalid => none

/-- OptionLegRecord from server/src/models/trade.ts. -/
structure OptionLegRecord where
  legType : OptionType
  position : Position
  strike : ℚ
  expiry : String
  quantity : ℕ
  price : Option ℚ
deriving DecidableEq, Repr

/-- TradeRecord from server/src/models/trade.ts, restricted to the fields
the analytics engine reads. -/
structure TradeRecord where
  symbol : String
  strategy : Option String
  status : TradeStatus
  openedAt : JDate
  closedAt : Option JDate
  netCredit : Option ℚ
  netDebit : Option ℚ
  legs : List OptionLegRecord
deriving DecidableEq, Repr

/-- The strategy archetype tags, StrategyKey in services/analytics.ts. -/
inductive StrategyKey where
  | single
  | verticalSpread
  | ironCondor
  | other
deriving DecidableEq, Repr

/-- classifyStrategy from services/analytics.ts: case on the leg count;
two legs compare expiry and option type; four legs check a single common
expiry (a Set of the expiries has size one, here dedup length one), the
presence of both positions and the presence of both option types. -/
def classifyStrategy (trade : TradeRecord) : StrategyKey :=
  match trade.legs with
  | [] => .other
  | [_] => .single
  | [first, second] =>
    if first.expiry = second.expiry ∧ first.legType = second.legType then
      .verticalSpread
    else
      .other
  | [a, b, c, d] =>
    let legs := [a, b, c, d]
    let expiries := (legs.map (fun leg => leg.expiry)).dedup
    let hasLongAndShort :=
      legs.any (fun leg => decide (leg.position = Position.long)) &&
      legs.any (fun leg => decide (leg.position = Position.short))
    let hasBothTypes :=
      legs.any (fun leg => decide (leg.legType = OptionType.call)) &&
      legs.any (fun leg => decide (leg.legType = OptionType.put))
    if expiries.length = 1 ∧ hasLongAndShort ∧ hasBothTypes then
      .ironCondor
    else
      .other
  | _ => .other

/-- Math.round: round half towards positive infinity. -/
def jsRound (x : ℚ) : ℤ := ⌊x + 1 / 2⌋

/-- Milliseconds in a day, the divisor 1000 * 60 * 60 * 24. -/
def MS_PER_DAY : ℚ := 1000 * 60 * 60 * 24

/-- daysBetween from services/analytics.ts: 0 when either date is
unparseable, otherwise the difference in days, floored at zero
before rounding. -/
def daysBetween (start finish : JDate) : ℤ :=
  match start.getTime, finish.getTime with
  | some startMs, some endMs => jsRound ((max 0 (endMs - startMs) : ℤ) / MS_PER_DAY)
  | _, _ => 0

/-- bucketHoldingPeriod from services/analytics.ts. -/
def bucketHoldingPeriod (days : ℤ) : String :=
  if days ≤ 3 then ("0-3d")
  else if days ≤ 7 then ("4-7d")
  else if days ≤ 30 then ("8-30d")
  else ("31d+")

/-- tradePnl from services/analytics.ts: netCredit - netDebit with null
read as zero. -/
def tradePnl (trade : TradeRecord) : ℚ :=
  trade.netCredit.getD 0 - trade.netDebit.getD 0

/-- tradeBasis from services/analytics.ts: the absolute net debit when
positive, else the absolute net credit, else 1 (basis or 1). -/
def tradeBasis (trade : TradeRecord) : ℚ :=
  let credit := |trade.netCredit.getD 0|
  let debit := |trade.netDebit.getD 0|
  let basis := if debit > 0 then debit else credit
  if basis = 0 then 1 else basis

/-- Number(x.toFixed(2)): rounding at two decimals, half towards
positive infinity. -/
def round2 (x : ℚ) : ℚ := (⌊x * 100 + 1 / 2⌋ : ℤ) / 100

/-- The totals accumulator initialised at the top of
calculateAnalyticsSnapshot. -/
structure TotalsAcc where
  wins : ℕ
  losses : ℕ
  pnlSum : ℚ
  pnlPctSum : ℚ
  holdSum : ℤ
  winPnlSum : ℚ
  lossPnlSum : ℚ
deriving DecidableEq, Repr

/-- The per-strategy accumulator value stored in strategyMap. -/
structure StratStats where
  total : ℕ
  wins : ℕ
  losses : ℕ
  pnlSum : ℚ
deriving DecidableEq, Repr

/-- Map.get on an insertion-ordered association list. -/
def jsMapGet {α β : Type} [DecidableEq α] (k : α) : List (α × β) → Option β
  | [] => none
  | (k1, v) :: rest => if k1 = k then some v else jsMapGet k rest

/-- Map.set on an insertion-ordered association list: replace in place
when the key is present, otherwise append. -/
def jsMapSet {α β : Type} [DecidableEq α] (k : α) (v : β) :
    List (α × β) → List (α × β)
  | [] => [(k, v)]
  | (k1, v1) :: rest =>
    if k1 = k then (k, v) :: rest else (k1, v1) :: jsMapSet k v rest

/-- The mutable state threaded through the aggregate loop over closed
trades in calculateAnalyticsSnapshot. -/
structure AggState where
  totals : TotalsAcc
  strategyMap : List (StrategyKey × StratStats)
  holdingBuckets : List (String × ℕ)
deriving DecidableEq, Repr

/-- The initial aggregate state: all counters zero, both maps empty. -/
def initAggState : AggState :=
  { totals := ⟨0, 0, 0, 0, 0, 0, 0⟩, strategyMap := [], holdingBuckets := [] }

/-- One iteration of the aggregate for-loop over closed trades in
calculateAnalyticsSnapshot. The branch on pnl of exactly zero only adds
zero to the group total, as in the source. -/
def aggStep (st : AggState) (trade : TradeRecord) : AggState :=
  let pnl := tradePnl trade
  let basis := tradeBasis trade
  let pnlPct := pnl / basis * 100
  let holdDays := daysBetween trade.openedAt (trade.closedAt.getD trade.openedAt)
  let bucket := bucketHoldingPeriod holdDays
  let holdingBuckets :=
    jsMapSet bucket ((jsMapGet bucket st.holdingBuckets).getD 0 + 1) st.holdingBuckets
  let strategy := classifyStrategy trade
  let current0 := (jsMapGet strategy st.strategyMap).getD ⟨0, 0, 0, 0⟩
  let current1 : StratStats :=
    { current0 with total := current0.total + 1, pnlSum := current0.pnlSum + pnl }
  let totals1 : TotalsAcc :=
    { st.totals with
      pnlSum := st.totals.pnlSum + pnl
      pnlPctSum := st.totals.pnlPctSum + pnlPct
      holdSum := st.totals.holdSum + holdDays }
  let totals2 : TotalsAcc :=
    if 0 < pnl then
      { totals1 with
          wins := totals1.wins + 1
          winPnlSum := totals1.winPnlSum + pnl }
    else if pnl < 0 then
      { totals1 with
          losses := totals1.losses + 1
          lossPnlSum := totals1.lossPnlSum + |pnl| }
    else
      totals1
  let current2 : StratStats :=
    if 0 < pnl then
      { current1 with wins := current1.wins + 1 }
    else if pnl < 0 then
      { current1 with losses := current1.losses + 1 }
    else
      { current1 with total := current1.total + 0 }
  { totals := totals2
    strategyMap := jsMapSet strategy current2 st.strategyMap
    holdingBuckets := holdingBuckets }

/-- The sort key of a trade in the equity-curve sort: the parsed
timestamp of closedAt, falling back to openedAt. -/
def tradeDateKey (trade : TradeRecord) : Option ℤ :=
  (trade.closedAt.getD trade.openedAt).getTime

/-- The equity-curve comparator as a boolean relation: the numeric
comparator is nonpositive. When either getTime is NaN the comparator
returns NaN, which orders neither way. -/
def tradeLe (a b : TradeRecord) : Bool :=
  match tradeDateKey a, tradeDateKey b with
  | some x, some y => decide (x ≤ y)
  | _, _ => false

/-- Insert one element into a sorted list, before the first element it
orders no later than. -/
def jsInsert {α : Type} (le : α → α → Bool) (a : α) : List α → List α
  | [] => [a]
  | b :: l => if le a b then a :: b :: l else b :: jsInsert le a l

/-- Stable sort by a boolean relation, modelling the stable
Array.prototype.sort. -/
def jsStableSort {α : Type} (le : α → α → Bool) : List α → List α
  | [] => []
  | a :: l => jsInsert le a (jsStableSort le l)

/-- One point of the equity curve. -/
structure EquityPoint where
  date : JDate
  cumulativePnl : ℚ
deriving DecidableEq, Repr

/-- The equity-curve loop of calculateAnalyticsSnapshot: a running
cumulative sum, each emitted point rounded at two decimals. -/
def equityFold (cumulative : ℚ) : List TradeRecord → List EquityPoint
  | [] => []
  | trade :: rest =>
    let c := cumulative + tradePnl trade
    { date := trade.closedAt.getD trade.openedAt, cumulativePnl := round2 c }
      :: equityFold c rest

/-- One row of the strategy breakdown, StrategyMetric in
services/analytics.ts. -/
structure StrategyMetric where
  strategy : StrategyKey
  total : ℕ
  wins : ℕ
  losses : ℕ
  averagePnl : ℚ
deriving DecidableEq, Repr

/-- One row of the holding-period report, HoldingBucket in
services/analytics.ts. -/
structure HoldingBucket where
  bucket : String
  count : ℕ
deriving DecidableEq, Repr

/-- The totals block of the snapshot. -/
structure SnapshotTotals where
  winRate : ℚ
  averagePnl : ℚ
  averagePnlPct : ℚ
  expectancy : ℚ
  averageHoldDays : ℚ
  closedTrades : ℕ
deriving DecidableEq, Repr

/-- AnalyticsSnapshot from services/analytics.ts; generatedAt is the
millisecond timestamp taken at computation time. -/
structure AnalyticsSnapshot where
  generatedAt : ℤ
  totals : SnapshotTotals
  strategyBreakdown : List StrategyMetric
  equityCurve : List EquityPoint
  holdingPeriods : List HoldingBucket
deriving DecidableEq, Repr

/-- The fixed bucket label list of the holding-period report. -/
def bucketLabels : List String := ["0-3d", "4-7d", "8-30d", "31d+"]

/-- calculateAnalyticsSnapshot from services/analytics.ts, with the
listTrades read passed in as the trades argument and the current time
as now. -/
def calculateAnalyticsSnapshot (trades : List TradeRecord) (now : ℤ) :
    AnalyticsSnapshot :=
  let closedTrades := trades.filter (fun trade => trade.closedAt.isSome)
  let st := closedTrades.foldl aggStep initAggState
  let sortedClosed := jsStableSort tradeLe closedTrades
  let equityBase := equityFold 0 sortedClosed
  let closedCount := closedTrades.length
  let winRate : ℚ := if closedCount = 0 then 0 else (st.totals.wins : ℚ) / closedCount
  let averagePnl : ℚ := if closedCount = 0 then 0 else st.totals.pnlSum / closedCount
  let averagePnlPct : ℚ := if closedCount = 0 then 0 else st.totals.pnlPctSum / closedCount
  let averageHoldDays : ℚ :=
    if closedCount = 0 then 0 else (st.totals.holdSum : ℚ) / closedCount
  let avgWin : ℚ := if st.totals.wins = 0 then 0 else st.totals.winPnlSum / st.totals.wins
  let avgLoss : ℚ := if st.totals.losses = 0 then 0 else st.totals.lossPnlSum / st.totals.losses
  let expectancy := avgWin * winRate - avgLoss * (1 - winRate)
  let strategyBreakdown :=
    st.strategyMap.map (fun p =>
      { strategy := p.1, total := p.2.total, wins := p.2.wins, losses := p.2.losses,
        averagePnl := if p.2.total = 0 then 0 else round2 (p.2.pnlSum / p.2.total) })
  let strategyBreakdown :=
    jsStableSort (fun a b => decide (b.total ≤ a.total)) strategyBreakdown
  let holdingPeriods :=
    bucketLabels.map (fun bucket =>
      { bucket := bucket, count := (jsMapGet bucket st.holdingBuckets).getD 0 })
  { generatedAt := now
    totals :=
      { winRate := round2 (winRate * 100)
        averagePnl := round2 averagePnl
        averagePnlPct := round2 averagePnlPct
        expectancy := round2 expectancy
        averageHoldDays := round2 averageHoldDays
        closedTrades := closedCount }
    strategyBreakdown := strategyBreakdown
    equityCurve := equityBase
    holdingPeriods := holdingPeriods }

/-- StoredAnalyticsSnapshot from models/analytics.ts: one row of
analytics_summaries. reportDate is a day index (the DATE column),
calculatedAt a millisecond timestamp. -/
structure StoredAnalyticsSnapshot where
  userId : String
  label : String
  reportDate : ℤ
  calculatedAt : ℤ
  snapshot : AnalyticsSnapshot
deriving DecidableEq, Repr

/-- DEFAULT_LABEL from models/analytics.ts. -/
def DEFAULT_LABEL : String := "portfolio"

/-- ONE_DAY_MS from routes/analytics.ts. -/
def ONE_DAY_MS : ℤ := 24 * 60 * 60 * 1000

/-- Truncation of a millisecond timestamp to the DATE column value
stored for report_date: the day index of the timestamp. -/
def reportDateOf (ms : ℤ) : ℤ := Int.fdiv ms ONE_DAY_MS

/-- Row ordering of the getLatestAnalyticsSnapshot query: report_date
descending, then calculated_at descending; a runs before b. -/
def snapNewer (a b : StoredAnalyticsSnapshot) : Bool :=
  decide (b.reportDate < a.reportDate ∨
    (b.reportDate = a.reportDate ∧ b.calculatedAt < a.calculatedAt))

/-- getLatestAnalyticsSnapshot from models/analytics.ts: among the rows
of one user and label, the first row in (report_date DESC,
calculated_at DESC) order, or none. -/
def getLatestAnalyticsSnapshot (rows : List StoredAnalyticsSnapshot)
    (userId label : String) : Option StoredAnalyticsSnapshot :=
  (rows.filter (fun r => decide (r.userId = userId ∧ r.label = label))).foldl
    (fun acc r =>
      match acc with
      | none => some r
      | some best => if snapNewer r best then some r else some best)
    none

/-- upsertAnalyticsSnapshot from models/analytics.ts: insert a row for
(user_id, label, report_date), or on conflict overwrite snapshot and
calculated_at in place; returns the stored row and the updated table. -/
def upsertAnalyticsSnapshot (rows : List StoredAnalyticsSnapshot)
    (userId : String) (snapshot : AnalyticsSnapshot) (label : String)
    (reportDate now : ℤ) :
    StoredAnalyticsSnapshot × List StoredAnalyticsSnapshot :=
  let row : StoredAnalyticsSnapshot :=
    { userId := userId, label := label, reportDate := reportDate,
      calculatedAt := now, snapshot := snapshot }
  let updated :=
    if rows.any (fun r =>
        decide (r.userId = userId ∧ r.label = label ∧ r.reportDate = reportDate)) then
      rows.map (fun r =>
        if r.userId = userId ∧ r.label = label ∧ r.reportDate = reportDate then row else r)
    else
      rows ++ [row]
  (row, updated)

/-- The JSON body of the summary and recalculate routes. -/
structure SummaryResponse where
  data : AnalyticsSnapshot
  reportDate : ℤ
  calculatedAt : ℤ
  refreshed : Bool
deriving DecidableEq, Repr

/-- The GET summary handler from routes/analytics.ts: return the latest
stored snapshot unless it is absent or strictly older than ONE_DAY_MS,
in which case recompute, upsert under the default label at the current
date, and return the fresh row. -/
def getSummary (rows : List StoredAnalyticsSnapshot) (userId : String)
    (trades : List TradeRecord) (now : ℤ) :
    SummaryResponse × List StoredAnalyticsSnapshot :=
  let existing := getLatestAnalyticsSnapshot rows userId DEFAULT_LABEL
  let shouldRecompute :=
    match existing with
    | none => true
    | some row => decide (ONE_DAY_MS < now - row.calculatedAt)
  match existing, shouldRecompute with
  | some row, false =>
    ({ data := row.snapshot, reportDate := row.reportDate,
       calculatedAt := row.calculatedAt, refreshed := false }, rows)
  | _, _ =>
    let snapshot := calculateAnalyticsSnapshot trades now
    let stored := upsertAnalyticsSnapshot rows userId snapshot DEFAULT_LABEL (reportDateOf now) now
    ({ data := stored.1.snapshot, reportDate := stored.1.reportDate,
       calculatedAt := stored.1.calculatedAt, refreshed := true }, stored.2)

/-- The POST recalculate handler from routes/analytics.ts: recompute
unconditionally, upsert, and return the fresh row with refreshed true. -/
def forceRecalculate (rows : List StoredAnalyticsSnapshot) (userId : String)
    (trades : List TradeRecord) (now : ℤ) :
    SummaryResponse × List StoredAnalyticsSnapshot :=
  let snapshot := calculateAnalyticsSnapshot trades now
  let stored := upsertAnalyticsSnapshot rows userId snapshot DEFAULT_LABEL (reportDateOf now) now
  ({ data := stored.1.snapshot, reportDate := stored.1.reportDate,
     calculatedAt := stored.1.calculatedAt, refreshed := true }, stored.2)

/-- recalculateAnalyticsForAllUsers from tasks/analytics.ts: a
sequential await loop over all user ids with no try/catch inside the
loop body. The per-user body (calculateAnalyticsSnapshot plus the
upsert, either of which may throw at the I/O boundary) is abstracted as
recalcUser. Returns the users whose recompute completed, and the first
error if one was thrown, which aborts the rest of the loop. -/
def recalculateAnalyticsForAllUsers (recalcUser : String → Except String Unit) :
    List String → List String × Option String
  | [] => ([], none)
  | u :: rest =>
    match recalcUser u with
    | Except.ok _ =>
      let tail := recalculateAnalyticsForAllUsers recalcUser rest
      (u :: tail.1, tail.2)
    | Except.error e => ([], some e)

/-- The cron callback from index.ts: run the batch, catching and
logging any error that propagates out of it; the boolean records
whether an error was caught. The scheduler itself never crashes. -/
def analyticsCronTick (recalcUser : String → Except String Unit)
    (users : List String) : List String × Bool :=
  let run := recalculateAnalyticsForAllUsers recalcUser users
  (run.1, run.2.isSome)

/-- Three user ids for concrete batch runs. -/
def usrA : String := "u1"

/-- Second sample user id. -/
def usrB : String := "u2"

/-- Third sample user id. -/
def usrC : String := "u3"

/-- A sample error message thrown by a failing per-user recompute. -/
def dbErr : String := "connection lost"

/-- A per-user recompute action that throws exactly for usrB. -/
def failingRecalc : String → Except String Unit :=
  fun u => if u = usrB then Except.error dbErr else Except.ok ()

/-- Claim C1 as stated is false on the code: with users u1, u2, u3 and a
per-user recompute that fails for u2, the batch loop recomputes only u1;
u3, which comes after the failing user, is never recomputed. -/
theorem claim_C1_counterexample :
    (recalculateAnalyticsForAllUsers failingRecalc [usrA, usrB, usrC]).1 = [usrA] ∧
    usrC ∉ (recalculateAnalyticsForAllUsers failingRecalc [usrA, usrB, usrC]).1 := by
  constructor
  · decide
  · decide

/-- Claim C1 amended: the batch loop has no per-user failure isolation.
When every user succeeds, all users are recomputed in order. When one
user fails after an initial run of successes, exactly that initial run is
recomputed, the error propagates out of the loop, and the scheduler
wrapper catches it, so the cron job itself does not crash, but every
user after the failing one is skipped. -/
theorem claim_C1_amended (recalcUser : String → Except String Unit) :
    (∀ users : List String, (∀ v ∈ users, recalcUser v = Except.ok ()) →
      recalculateAnalyticsForAllUsers recalcUser users = (users, none)) ∧
    (∀ (pre post : List String) (u e : String),
      (∀ v ∈ pre, recalcUser v = Except.ok ()) →
      recalcUser u = Except.error e →
      recalculateAnalyticsForAllUsers recalcUser (pre ++ u :: post) = (pre, some e) ∧
      analyticsCronTick recalcUser (pre ++ u :: post) = (pre, true)) := by
  constructor
  · intro users hok
    induction users with
    | nil => rfl
    | cons v rest ih =>
      have hv : recalcUser v = Except.ok () := hok v (by simp)
      have hrest := ih (fun w hw => hok w (by simp [hw]))
      simp [recalculateAnalyticsForAllUsers, hv, hrest]
  · intro pre post u e hpre hu
    have hrun : recalculateAnalyticsForAllUsers recalcUser (pre ++ u :: post) = (pre, some e) := by
      induction pre with
      | nil => simp [recalculateAnalyticsForAllUsers, hu]
      | cons v rest ih =>
        have hv : recalcUser v = Except.ok () := hpre v (by simp)
        have htail := ih (fun w hw => hpre w (by simp [hw]))
        simp [recalculateAnalyticsForAllUsers, hv, htail]
    exact ⟨hrun, by simp [analyticsCronTick, hrun]⟩

/-- Witness for the amended claim C1 at a concrete run: u1
succeeds, u2 fails, u3 is skipped and the error is caught by the cron
wrapper. -/
theorem claim_C1_amended_witness :
    recalculateAnalyticsForAllUsers failingRecalc [usrA, usrB, usrC] = ([usrA], some dbErr) ∧
    analyticsCronTick failingRecalc [usrA, usrB, usrC] = ([usrA], true) :=
  (claim_C1_amended failingRecalc).2 [usrA] [usrC] usrB dbErr
    (by intro v hv; simp only [List.mem_singleton] at hv; subst hv
        simp [failingRecalc, usrA, usrB])
    (by simp [failingRecalc])

/-- Claim C7: per-trade profit and loss is netCredit minus netDebit
with null read as zero; the percentage-return denominator is the
absolute net debit when non-zero, else the absolute net credit when
non-zero, else one, and it is strictly positive for every combination
of null, zero or negative fields. -/
theorem claim_C7_pnl_basis (trade : TradeRecord) :
    tradePnl trade = trade.netCredit.getD 0 - trade.netDebit.getD 0 ∧
    tradeBasis trade =
      (if |trade.netDebit.getD 0| ≠ 0 then |trade.netDebit.getD 0|
       else if |trade.netCredit.getD 0| ≠ 0 then |trade.netCredit.getD 0|
       else 1) ∧
    0 < tradeBasis trade := by
  have hbasis : tradeBasis trade =
      (if |trade.netDebit.getD 0| ≠ 0 then |trade.netDebit.getD 0|
       else if |trade.netCredit.getD 0| ≠ 0 then |trade.netCredit.getD 0|
       else 1) := by
    unfold tradeBasis
    by_cases hd : (0:ℚ) < |trade.netDebit.getD 0|
    · simp [hd, ne_of_gt hd]
    · have hd0 : |trade.netDebit.getD 0| = 0 :=
        le_antisymm (not_lt.mp hd) (abs_nonneg _)
      by_cases hc : |trade.netCredit.getD 0| = 0
      · simp [hd, hd0, hc]
      · simp [hd, hd0, hc]
  refine ⟨rfl, hbasis, ?_⟩
  rw [hbasis]
  split_ifs with h1 h2
  · exact (abs_nonneg _).lt_of_ne (Ne.symm h1)
  · exact (abs_nonneg _).lt_of_ne (Ne.symm h2)
  · exact one_pos

/-- Witness for claim C7 at a trade with a negative net credit and null
net debit. -/
theorem claim_C7_pnl_basis_witness :
    tradePnl
      { symbol := usrA, strategy := none, status := .isOpen, openedAt := .valid 0,
        closedAt := none, netCredit := some (-5), netDebit := none, legs := [] } = -5 ∧
    tradeBasis
      { symbol := usrA, strategy := none, status := .isOpen, openedAt := .valid 0,
        closedAt := none, netCredit := some (-5), netDebit := none, legs := [] } = 5 := by
  have h := claim_C7_pnl_basis
    { symbol := usrA, strategy := none, status := .isOpen, openedAt := .valid 0,
      closedAt := none, netCredit := some (-5), netDebit := none, legs := [] }
  refine ⟨?_, ?_⟩
  · rw [h.1]; norm_num
  · rw [h.2.1]; norm_num

/-- Claim C9: snapshot computation is deterministic in the trade
history. Two successive forced recomputations over an unchanged trade
history, at different times and with the second seeing the store left
by the first, return identical totals, strategy breakdown, equity curve
and holding periods, differing at most in generatedAt. -/
theorem claim_C9_deterministic (rows : List StoredAnalyticsSnapshot)
    (userId : String) (trades : List TradeRecord) (t1 t2 : ℤ) :
    (forceRecalculate ((forceRecalculate rows userId trades t1).2) userId trades t2).1.data.totals
      = (forceRecalculate rows userId trades t1).1.data.totals ∧
    (forceRecalculate ((forceRecalculate rows userId trades t1).2) userId trades t2).1.data.strategyBreakdown
      = (forceRecalculate rows userId trades t1).1.data.strategyBreakdown ∧
    (forceRecalculate ((forceRecalculate rows userId trades t1).2) userId trades t2).1.data.equityCurve
      = (forceRecalculate rows userId trades t1).1.data.equityCurve ∧
    (forceRecalculate ((forceRecalculate rows userId trades t1).2) userId trades t2).1.data.holdingPeriods
      = (forceRecalculate rows userId trades t1).1.data.holdingPeriods ∧
    (forceRecalculate rows userId trades t1).1.refreshed = true ∧
    (forceRecalculate ((forceRecalculate rows userId trades t1).2) userId trades t2).1.refreshed = true := by
  refine ⟨rfl, rfl, rfl, rfl, rfl, rfl⟩

/-- A deduplicated nonempty list has length one exactly when every
element equals the head; this is the Set-of-expiries-has-size-one test
of the classifier. -/
lemma dedup_length_one {α : Type} [DecidableEq α] (x : α) (l : List α) :
    ((x :: l).dedup.length = 1) ↔ ∀ y ∈ l, y = x := by
  rw [← List.card_toFinset]
  constructor
  · intro h
    obtain ⟨a, ha⟩ := Finset.card_eq_one.mp h
    intro y hy
    have hya : y ∈ (x :: l).toFinset := by simp [hy]
    have hxa : x ∈ (x :: l).toFinset := by simp
    rw [ha] at hya hxa
    simp only [Finset.mem_singleton] at hya hxa
    rw [hya, hxa]
  · intro h
    have hsing : (x :: l).toFinset = {x} := by
      apply Finset.eq_singleton_iff_unique_mem.mpr
      refine ⟨by simp, ?_⟩
      intro y hy
      simp only [List.toFinset_cons, Finset.mem_insert, List.mem_toFinset] at hy
      rcases hy with rfl | hy
      · rfl
      · exact h y hy
    rw [hsing]
    simp

/-- Claim C2: the strategy classifier is a total function of the leg
list alone, with the stated precedence: zero legs other, one leg
single, two legs verticalSpread exactly when expiry and option type
both match, four legs ironCondor exactly when one common expiry and
both positions and both option types are present, and any other leg
count other. -/
theorem claim_C2_classifier (trade : TradeRecord) :
    (trade.legs = [] → classifyStrategy trade = .other) ∧
    (∀ leg, trade.legs = [leg] → classifyStrategy trade = .single) ∧
    (∀ a b, trade.legs = [a, b] →
      classifyStrategy trade =
        if a.expiry = b.expiry ∧ a.legType = b.legType then .verticalSpread
        else .other) ∧
    (∀ a b c d, trade.legs = [a, b, c, d] →
      classifyStrategy trade =
        if (∀ leg ∈ [a, b, c, d], leg.expiry = a.expiry) ∧
           (∃ leg ∈ [a, b, c, d], leg.position = Position.long) ∧
           (∃ leg ∈ [a, b, c, d], leg.position = Position.short) ∧
           (∃ leg ∈ [a, b, c, d], leg.legType = OptionType.call) ∧
           (∃ leg ∈ [a, b, c, d], leg.legType = OptionType.put)
        then .ironCondor else .other) ∧
    (trade.legs.length = 3 ∨ 5 ≤ trade.legs.length → classifyStrategy trade = .other) ∧
    (∀ tr2 : TradeRecord, trade.legs = tr2.legs →
      classifyStrategy trade = classifyStrategy tr2) := by
  obtain ⟨sym, strat, stat, op, cl, nc, nd, legs⟩ := trade
  refine ⟨?_, ?_, ?_, ?_, ?_, ?_⟩
  · intro h
    simp only at h
    subst h
    rfl
  · intro leg h
    simp only at h
    subst h
    rfl
  · intro a b h
    simp only at h
    subst h
    rfl
  · intro a b c d h
    simp only at h
    subst h
    simp only [classifyStrategy]
    refine if_congr ?_ rfl rfl
    rw [show ([a, b, c, d].map (fun leg => leg.expiry)) =
        a.expiry :: [b.expiry, c.expiry, d.expiry] from rfl]
    rw [dedup_length_one]
    simp [and_assoc]
  · intro h
    simp only at h
    rcases legs with _ | ⟨a1, _ | ⟨a2, _ | ⟨a3, _ | ⟨a4, _ | ⟨a5, rest⟩⟩⟩⟩⟩
    · simp at h
    · simp at h
    · simp at h
    · rfl
    · simp at h
    · rfl
  · intro tr2 h
    obtain ⟨sym2, strat2, stat2, op2, cl2, nc2, nd2, legs2⟩ := tr2
    simp only at h
    subst h
    rfl

/-- A sample expiry string shared by the witness legs. -/
def expSample : String := "2024-02-16"

/-- The four-leg iron condor of the spec example: same expiry, long
call, short call, long put, short put. -/
def condorTrade : TradeRecord :=
  { symbol := usrA, strategy := none, status := .isOpen, openedAt := .valid 0,
    closedAt := none, netCredit := some 120, netDebit := none,
    legs :=
      [⟨.call, .long, 110, expSample, 1, some 1⟩,
       ⟨.call, .short, 105, expSample, 1, some 2⟩,
       ⟨.put, .long, 80, expSample, 1, some 1⟩,
       ⟨.put, .short, 85, expSample, 1, some 2⟩] }

/-- The same four legs but all long, which must fail the condor test. -/
def allLongTrade : TradeRecord :=
  { symbol := usrA, strategy := none, status := .isOpen, openedAt := .valid 0,
    closedAt := none, netCredit := some 120, netDebit := none,
    legs :=
      [⟨.call, .long, 110, expSample, 1, some 1⟩,
       ⟨.call, .long, 105, expSample, 1, some 2⟩,
       ⟨.put, .long, 80, expSample, 1, some 1⟩,
       ⟨.put, .long, 85, expSample, 1, some 2⟩] }

/-- Witness for claim C2 at the spec examples: the mixed four-leg trade
classifies ironCondor, the all-long variant classifies other. -/
theorem claim_C2_classifier_witness :
    classifyStrategy condorTrade = .ironCondor ∧
    classifyStrategy allLongTrade = .other := by
  constructor
  · rw [(claim_C2_classifier condorTrade).2.2.2.1 _ _ _ _ rfl]
    decide
  · rw [(claim_C2_classifier allLongTrade).2.2.2.1 _ _ _ _ rfl]
    decide

/-- Claim C3: getSummary returns the stored snapshot unchanged with
refreshed false while the stored calculation timestamp is at most 24
hours old; with no stored snapshot, or one strictly older, it
recomputes via the aggregator, upserts under (user, default label,
current date) and returns the fresh snapshot with refreshed true. -/
theorem claim_C3_getSummary (rows : List StoredAnalyticsSnapshot) (userId : String)
    (trades : List TradeRecord) (now : ℤ) :
    (∀ row, getLatestAnalyticsSnapshot rows userId DEFAULT_LABEL = some row →
      now - row.calculatedAt ≤ ONE_DAY_MS →
      getSummary rows userId trades now =
        ({ data := row.snapshot, reportDate := row.reportDate,
           calculatedAt := row.calculatedAt, refreshed := false }, rows)) ∧
    (getLatestAnalyticsSnapshot rows userId DEFAULT_LABEL = none →
      getSummary rows userId trades now =
        ({ data := calculateAnalyticsSnapshot trades now,
           reportDate := reportDateOf now, calculatedAt := now, refreshed := true },
         (upsertAnalyticsSnapshot rows userId (calculateAnalyticsSnapshot trades now)
            DEFAULT_LABEL (reportDateOf now) now).2)) ∧
    (∀ row, getLatestAnalyticsSnapshot rows userId DEFAULT_LABEL = some row →
      ONE_DAY_MS < now - row.calculatedAt →
      getSummary rows userId trades now =
        ({ data := calculateAnalyticsSnapshot trades now,
           reportDate := reportDateOf now, calculatedAt := now, refreshed := true },
         (upsertAnalyticsSnapshot rows userId (calculateAnalyticsSnapshot trades now)
            DEFAULT_LABEL (reportDateOf now) now).2)) := by
  refine ⟨?_, ?_, ?_⟩
  · intro row hrow hle
    have hdec : decide (ONE_DAY_MS < now - row.calculatedAt) = false :=
      decide_eq_false (not_lt.mpr hle)
    simp [getSummary, hrow, hdec]
  · intro hnone
    simp [getSummary, hnone, upsertAnalyticsSnapshot]
  · intro row hrow hlt
    have hdec : decide (ONE_DAY_MS < now - row.calculatedAt) = true := decide_eq_true hlt
    simp [getSummary, hrow, hdec, upsertAnalyticsSnapshot]

/-- A snapshot value with empty content, used for stored sample rows. -/
def emptySnap : AnalyticsSnapshot :=
  { generatedAt := 0, totals := ⟨0, 0, 0, 0, 0, 0⟩,
    strategyBreakdown := [], equityCurve := [], holdingPeriods := [] }

/-- A stored snapshot row for user u1 calculated at time zero. -/
def sampleRow : StoredAnalyticsSnapshot :=
  { userId := usrA, label := DEFAULT_LABEL, reportDate := 0, calculatedAt := 0,
    snapshot := emptySnap }

/-- Witness for claim C3: a fresh stored row is returned unchanged with
refreshed false. -/
theorem claim_C3_getSummary_witness :
    getSummary [sampleRow] usrA [] 100 =
      ({ data := emptySnap, reportDate := 0, calculatedAt := 0, refreshed := false },
       [sampleRow]) :=
  (claim_C3_getSummary [sampleRow] usrA [] 100).1 sampleRow rfl (by decide)

/-- Claim C10: the staleness check is strict. A stored snapshot aged
exactly 24 hours (or less) is returned with refreshed false and the
store is left unchanged; recomputation happens exactly when the age
strictly exceeds 24 hours. -/
theorem claim_C10_strict_staleness (rows : List StoredAnalyticsSnapshot)
    (userId : String) (trades : List TradeRecord) (now : ℤ)
    (row : StoredAnalyticsSnapshot)
    (hlatest : getLatestAnalyticsSnapshot rows userId DEFAULT_LABEL = some row) :
    (now - row.calculatedAt = ONE_DAY_MS →
      getSummary rows userId trades now =
        ({ data := row.snapshot, reportDate := row.reportDate,
           calculatedAt := row.calculatedAt, refreshed := false }, rows)) ∧
    ((getSummary rows userId trades now).1.refreshed = true ↔
      ONE_DAY_MS < now - row.calculatedAt) := by
  constructor
  · intro hage
    have hdec : decide (ONE_DAY_MS < now - row.calculatedAt) = false :=
      decide_eq_false (by rw [hage]; exact lt_irrefl _)
    simp [getSummary, hlatest, hdec]
  · by_cases hlt : ONE_DAY_MS < now - row.calculatedAt
    · have hdec : decide (ONE_DAY_MS < now - row.calculatedAt) = true := decide_eq_true hlt
      simp [getSummary, hlatest, hdec, upsertAnalyticsSnapshot, hlt]
    · have hdec : decide (ONE_DAY_MS < now - row.calculatedAt) = false :=
        decide_eq_false hlt
      simp [getSummary, hlatest, hdec, hlt]

/-- Witness for claim C10: with a stored row aged exactly 24 hours,
getSummary does not recompute. -/
theorem claim_C10_strict_staleness_witness :
    getSummary [sampleRow] usrA [] ONE_DAY_MS =
      ({ data := emptySnap, reportDate := 0, calculatedAt := 0, refreshed := false },
       [sampleRow]) :=
  (claim_C10_strict_staleness [sampleRow] usrA [] ONE_DAY_MS sampleRow rfl).1 (by decide)

/-- The closed-trade sublist the aggregator works on. -/
def closedOf (trades : List TradeRecord) : List TradeRecord :=
  trades.filter (fun t => t.closedAt.isSome)

/-- The aggregate state after the loop over closed trades. -/
def aggOf (trades : List TradeRecord) : AggState :=
  (closedOf trades).foldl aggStep initAggState

/-- Unfolding lemma: the holding-period report of a snapshot. -/
lemma calc_holdingPeriods (trades : List TradeRecord) (now : ℤ) :
    (calculateAnalyticsSnapshot trades now).holdingPeriods =
      bucketLabels.map (fun bucket =>
        { bucket := bucket,
          count := (jsMapGet bucket (aggOf trades).holdingBuckets).getD 0 }) := rfl

/-- Unfolding lemma: the closed-trade count of a snapshot. -/
lemma calc_closedTrades (trades : List TradeRecord) (now : ℤ) :
    (calculateAnalyticsSnapshot trades now).totals.closedTrades =
      (closedOf trades).length := rfl

/-- Unfolding lemma: the strategy breakdown of a snapshot. -/
lemma calc_strategyBreakdown (trades : List TradeRecord) (now : ℤ) :
    (calculateAnalyticsSnapshot trades now).strategyBreakdown =
      jsStableSort (fun a b => decide (b.total ≤ a.total))
        ((aggOf trades).strategyMap.map (fun p =>
          { strategy := p.1, total := p.2.total, wins := p.2.wins, losses := p.2.losses,
            averagePnl := if p.2.total = 0 then 0 else round2 (p.2.pnlSum / p.2.total) })) := rfl

/-- Unfolding lemma: the equity curve of a snapshot. -/
lemma calc_equityCurve (trades : List TradeRecord) (now : ℤ) :
    (calculateAnalyticsSnapshot trades now).equityCurve =
      equityFold 0 (jsStableSort tradeLe (closedOf trades)) := rfl

/-- Claim C8: holding-day computation and bucketing. The whole-day
difference uses the parsed timestamps, is floored at zero and rounded
half up, and is zero when either date is unparseable; bucket boundaries
are at 3, 7 and 30 days inclusive; all four bucket labels always appear
in the fixed order, with count zero when no closed trade exists. -/
theorem claim_C8_holding (trades : List TradeRecord) (now : ℤ) :
    (∀ s e : ℤ, daysBetween (.valid s) (.valid e) =
      ⌊((max 0 (e - s) : ℤ) : ℚ) / (1000 * 60 * 60 * 24) + 1 / 2⌋) ∧
    (∀ d : JDate, daysBetween .invalid d = 0 ∧ daysBetween d .invalid = 0) ∧
    (∀ s e : JDate, 0 ≤ daysBetween s e) ∧
    (∀ days : ℤ,
      (bucketHoldingPeriod days = "0-3d" ↔ days ≤ 3) ∧
      (bucketHoldingPeriod days = "4-7d" ↔ 3 < days ∧ days ≤ 7) ∧
      (bucketHoldingPeriod days = "8-30d" ↔ 7 < days ∧ days ≤ 30) ∧
      (bucketHoldingPeriod days = "31d+" ↔ 30 < days)) ∧
    ((calculateAnalyticsSnapshot trades now).holdingPeriods.map (fun b => b.bucket) =
      ["0-3d", "4-7d", "8-30d", "31d+"]) ∧
    (closedOf trades = [] →
      (calculateAnalyticsSnapshot trades now).holdingPeriods =
        [⟨"0-3d", 0⟩, ⟨"4-7d", 0⟩, ⟨"8-30d", 0⟩, ⟨"31d+", 0⟩]) := by
  refine ⟨?_, ?_, ?_, ?_, ?_, ?_⟩
  · intro s e
    rfl
  · intro d
    cases d <;> exact ⟨rfl, rfl⟩
  · intro s e
    cases s with
    | invalid => cases e <;> simp [daysBetween, JDate.getTime]
    | valid sMs =>
      cases e with
      | invalid => simp [daysBetween, JDate.getTime]
      | valid eMs =>
        show (0:ℤ) ≤ jsRound _
        unfold jsRound
        rw [Int.le_floor]
        have h1 : (0:ℚ) ≤ ((max 0 (eMs - sMs) : ℤ) : ℚ) / MS_PER_DAY := by
          apply div_nonneg
          · exact_mod_cast le_max_left 0 (eMs - sMs)
          · norm_num [MS_PER_DAY]
        rw [Int.cast_zero]
        linarith
  · intro days
    unfold bucketHoldingPeriod
    refine ⟨?_, ?_, ?_, ?_⟩ <;> split_ifs <;> simp_all <;> omega
  · rw [calc_holdingPeriods]
    rfl
  · intro hempty
    rw [calc_holdingPeriods]
    simp only [aggOf, hempty, List.foldl_nil]
    rfl

/-- Witness for claim C8: a nine-day hold evaluates to nine days, and
with no trades all four buckets appear with count zero. -/
theorem claim_C8_holding_witness :
    daysBetween (.valid 0) (.valid 777600000) = 9 ∧
    (calculateAnalyticsSnapshot [] 0).holdingPeriods =
      [⟨"0-3d", 0⟩, ⟨"4-7d", 0⟩, ⟨"8-30d", 0⟩, ⟨"31d+", 0⟩] := by
  constructor
  · rw [(claim_C8_holding [] 0).1 0 777600000]
    rw [Int.floor_eq_iff]
    norm_num
  · exact (claim_C8_holding [] 0).2.2.2.2.2 rfl

/-- The holding days of one closed trade as the loop computes them. -/
def holdDaysOf (t : TradeRecord) : ℤ :=
  daysBetween t.openedAt (t.closedAt.getD t.openedAt)

/-- One aggregate step rewrites the totals accumulator componentwise. -/
lemma aggStep_totals (st : AggState) (t : TradeRecord) :
    (aggStep st t).totals =
      { wins := st.totals.wins + (if 0 < tradePnl t then 1 else 0)
        losses := st.totals.losses + (if tradePnl t < 0 then 1 else 0)
        pnlSum := st.totals.pnlSum + tradePnl t
        pnlPctSum := st.totals.pnlPctSum + tradePnl t / tradeBasis t * 100
        holdSum := st.totals.holdSum + holdDaysOf t
        winPnlSum := st.totals.winPnlSum + (if 0 < tradePnl t then tradePnl t else 0)
        lossPnlSum := st.totals.lossPnlSum + (if tradePnl t < 0 then |tradePnl t| else 0) } := by
  unfold aggStep holdDaysOf
  by_cases h1 : 0 < tradePnl t
  · simp [h1, lt_asymm h1]
  · by_cases h2 : tradePnl t < 0
    · simp [h1, h2]
    · simp [h1, h2]

/-- The totals accumulator after the loop: each component is the
corresponding count or sum over the processed list. -/
lemma foldl_totals (l : List TradeRecord) (st : AggState) :
    ((l.foldl aggStep st).totals.wins =
      st.totals.wins + l.countP (fun t => decide (0 < tradePnl t))) ∧
    ((l.foldl aggStep st).totals.losses =
      st.totals.losses + l.countP (fun t => decide (tradePnl t < 0))) ∧
    ((l.foldl aggStep st).totals.pnlSum = st.totals.pnlSum + (l.map tradePnl).sum) ∧
    ((l.foldl aggStep st).totals.pnlPctSum =
      st.totals.pnlPctSum + (l.map (fun t => tradePnl t / tradeBasis t * 100)).sum) ∧
    ((l.foldl aggStep st).totals.holdSum =
      st.totals.holdSum + (l.map holdDaysOf).sum) ∧
    ((l.foldl aggStep st).totals.winPnlSum =
      st.totals.winPnlSum +
        ((l.filter (fun t => decide (0 < tradePnl t))).map tradePnl).sum) ∧
    ((l.foldl aggStep st).totals.lossPnlSum =
      st.totals.lossPnlSum +
        ((l.filter (fun t => decide (tradePnl t < 0))).map (fun t => |tradePnl t|)).sum) := by
  induction l generalizing st with
  | nil => simp
  | cons t rest ih =>
    obtain ⟨ih1, ih2, ih3, ih4, ih5, ih6, ih7⟩ := ih (aggStep st t)
    simp only [List.foldl_cons, List.countP_cons, List.map_cons, List.sum_cons,
      List.filter_cons]
    rw [ih1, ih2, ih3, ih4, ih5, ih6, ih7, aggStep_totals]
    refine ⟨?_, ?_, ?_, ?_, ?_, ?_, ?_⟩ <;>
      by_cases h1 : 0 < tradePnl t <;> by_cases h2 : tradePnl t < 0 <;>
      simp [h1, h2] <;> ring

/-- Setting a key trades the old value of that key (default when
absent, with zero weight) for the new one in the weighted value sum. -/
lemma jsMapSet_sum_weight {α β : Type} [DecidableEq α] (w : β → ℕ) (d : β)
    (hd : w d = 0) (k : α) (v : β) (m : List (α × β)) :
    ((jsMapSet k v m).map (fun p => w p.2)).sum + w ((jsMapGet k m).getD d) =
      (m.map (fun p => w p.2)).sum + w v := by
  induction m with
  | nil => simp [jsMapSet, jsMapGet, hd]
  | cons p rest ih =>
    obtain ⟨k1, v1⟩ := p
    by_cases hk : k1 = k
    · subst hk
      simp [jsMapSet, jsMapGet]
      omega
    · simp [jsMapSet, jsMapGet, hk]
      omega

/-- Membership in a map after a set: the new pair or an old pair. -/
lemma jsMapSet_mem {α β : Type} [DecidableEq α] {k : α} {v : β}
    {m : List (α × β)} {p : α × β} (hp : p ∈ jsMapSet k v m) :
    p = (k, v) ∨ p ∈ m := by
  induction m with
  | nil => simpa [jsMapSet] using hp
  | cons q rest ih =>
    obtain ⟨k1, v1⟩ := q
    by_cases hk : k1 = k
    · subst hk
      simp only [jsMapSet, if_pos, List.mem_cons] at hp
      rcases hp with h | hp
      · exact Or.inl h
      · exact Or.inr (List.mem_cons_of_mem _ hp)
    · simp only [jsMapSet, if_neg hk, List.mem_cons] at hp
      rcases hp with h | hp
      · exact Or.inr (List.mem_cons.mpr (Or.inl h))
      · rcases ih hp with h | h
        · exact Or.inl h
        · exact Or.inr (List.mem_cons_of_mem _ h)

/-- A missing key is exactly a key outside the key list. -/
lemma jsMapGet_eq_none_iff {α β : Type} [DecidableEq α] (k : α) (m : List (α × β)) :
    jsMapGet k m = none ↔ k ∉ m.map Prod.fst := by
  induction m with
  | nil => simp [jsMapGet]
  | cons p rest ih =>
    obtain ⟨k1, v1⟩ := p
    by_cases h : k1 = k
    · subst h
      simp [jsMapGet]
    · simp [jsMapGet, h, ih, Ne.symm h]

/-- Setting a key preserves distinctness of the key list. -/
lemma jsMapSet_keys_nodup {α β : Type} [DecidableEq α] (k : α) (v : β)
    (m : List (α × β)) (h : (m.map Prod.fst).Nodup) :
    ((jsMapSet k v m).map Prod.fst).Nodup := by
  induction m with
  | nil => simp [jsMapSet]
  | cons p rest ih =>
    obtain ⟨k1, v1⟩ := p
    simp only [List.map_cons, List.nodup_cons] at h
    by_cases hk : k1 = k
    · subst hk
      simpa [jsMapSet] using h
    · simp only [jsMapSet, if_neg hk, List.map_cons, List.nodup_cons]
      refine ⟨?_, ih h.2⟩
      intro hmem
      rcases List.mem_map.mp hmem with ⟨q, hq, hfst⟩
      rcases jsMapSet_mem hq with rfl | hq2
      · exact hk hfst.symm
      · exact h.1 (hfst ▸ List.mem_map_of_mem Prod.fst hq2)

/-- Summing an if-tradeoff over a duplicate-free label list that
contains the key: the key contributes v, everything else f. -/
lemma sum_if_mem {α : Type} [DecidableEq α] (labels : List α)
    (hlnd : labels.Nodup) (k : α) (hk : k ∈ labels) (f : α → ℕ) (hfk : f k = 0)
    (v : ℕ) :
    (labels.map (fun b => if k = b then v else f b)).sum =
      v + (labels.map f).sum := by
  induction labels with
  | nil => simp at hk
  | cons b bs ih =>
    simp only [List.nodup_cons] at hlnd
    rcases List.mem_cons.mp hk with rfl | hmem
    · have hcongr : bs.map (fun x => if k = x then v else f x) = bs.map f := by
        apply List.map_congr_left
        intro x hx
        have hne : k ≠ x := fun h => hlnd.1 (h ▸ hx)
        simp [hne]
      simp only [List.map_cons, List.sum_cons, hcongr]
      simp [hfk]
    · have hne : k ≠ b := by
        intro h
        exact hlnd.1 (h ▸ hmem)
      simp only [List.map_cons, List.sum_cons, if_neg hne]
      rw [ih hlnd.2 hmem]
      omega

/-- Looking up every label of a duplicate-free list covering the keys
of a duplicate-free map recovers the total of the map values. -/
lemma sum_labels_getD {α : Type} [DecidableEq α] (labels : List α)
    (hlnd : labels.Nodup) (m : List (α × ℕ))
    (hnd : (m.map Prod.fst).Nodup) (hsub : ∀ p ∈ m, p.1 ∈ labels) :
    (labels.map (fun b => (jsMapGet b m).getD 0)).sum =
      (m.map (fun p => p.2)).sum := by
  induction m with
  | nil => simp [jsMapGet]
  | cons p rest ih =>
    obtain ⟨k, v⟩ := p
    simp only [List.map_cons, List.nodup_cons] at hnd
    have hk : k ∈ labels := hsub (k, v) (List.mem_cons_self _ _)
    have hgetrest : jsMapGet k rest = none :=
      (jsMapGet_eq_none_iff _ _).mpr hnd.1
    have hstep : labels.map (fun b => (jsMapGet b ((k, v) :: rest)).getD 0) =
        labels.map (fun b => if k = b then v else (jsMapGet b rest).getD 0) := by
      apply List.map_congr_left
      intro b _
      by_cases h : k = b <;> simp [jsMapGet, h]
    rw [hstep, sum_if_mem labels hlnd k hk _ (by simp [hgetrest]) v,
      ih hnd.2 (fun q hq => hsub q (List.mem_cons_of_mem _ hq))]
    simp

/-- Inserting into a list is a permutation of consing. -/
lemma jsInsert_perm {α : Type} (le : α → α → Bool) (a : α) (l : List α) :
    (jsInsert le a l).Perm (a :: l) := by
  induction l with
  | nil => exact List.Perm.refl _
  | cons b rest ih =>
    unfold jsInsert
    by_cases h : le a b
    · simp only [h, if_true]
      exact List.Perm.refl _
    · simp only [h, if_false]
      exact (ih.cons b).trans (List.Perm.swap a b rest)

/-- The stable sort is a permutation of its input. -/
lemma jsStableSort_perm {α : Type} (le : α → α → Bool) (l : List α) :
    (jsStableSort le l).Perm l := by
  induction l with
  | nil => exact List.Perm.refl _
  | cons a rest ih =>
    exact (jsInsert_perm le a _).trans (ih.cons a)

/-- One aggregate step rewrites the holding-bucket map by bumping the
bucket of the trade by one. -/
lemma aggStep_buckets (st : AggState) (t : TradeRecord) :
    (aggStep st t).holdingBuckets =
      jsMapSet (bucketHoldingPeriod (holdDaysOf t))
        ((jsMapGet (bucketHoldingPeriod (holdDaysOf t)) st.holdingBuckets).getD 0 + 1)
        st.holdingBuckets := rfl

/-- The strategy-group value written by one aggregate step: the
current2 sub-computation of aggStep, named so it can be reasoned about;
definitionally equal to the value aggStep stores. -/
def aggStratValue (st : AggState) (t : TradeRecord) : StratStats :=
  let pnl := tradePnl t
  let current0 := (jsMapGet (classifyStrategy t) st.strategyMap).getD ⟨0, 0, 0, 0⟩
  let current1 : StratStats :=
    { current0 with total := current0.total + 1, pnlSum := current0.pnlSum + pnl }
  if 0 < pnl then { current1 with wins := current1.wins + 1 }
  else if pnl < 0 then { current1 with losses := current1.losses + 1 }
  else { current1 with total := current1.total + 0 }

/-- One aggregate step rewrites the strategy map by storing the updated
group value under the classified key. -/
lemma aggStep_strategyMap (st : AggState) (t : TradeRecord) :
    (aggStep st t).strategyMap =
      jsMapSet (classifyStrategy t) (aggStratValue st t) st.strategyMap := rfl

/-- The stored group value always has total one more than before. -/
lemma aggStratValue_total (st : AggState) (t : TradeRecord) :
    (aggStratValue st t).total =
      ((jsMapGet (classifyStrategy t) st.strategyMap).getD ⟨0, 0, 0, 0⟩).total + 1 := by
  unfold aggStratValue
  by_cases h1 : 0 < tradePnl t
  · simp [h1]
  · by_cases h2 : tradePnl t < 0 <;> simp [h1, h2]

/-- One aggregate step raises the strategy-map group-total sum by one. -/
lemma aggStep_strat_sum (st : AggState) (t : TradeRecord) :
    ((aggStep st t).strategyMap.map (fun p => p.2.total)).sum =
      (st.strategyMap.map (fun p => p.2.total)).sum + 1 := by
  rw [aggStep_strategyMap]
  have key := jsMapSet_sum_weight (fun s : StratStats => s.total)
    (⟨0, 0, 0, 0⟩ : StratStats) rfl (classifyStrategy t) (aggStratValue st t)
    st.strategyMap
  have hv := aggStratValue_total st t
  simp only [] at key
  omega

/-- The strategy-map group totals after the loop sum to the number of
processed trades. -/
lemma foldl_strat_sum (l : List TradeRecord) (st : AggState) :
    ((l.foldl aggStep st).strategyMap.map (fun p => p.2.total)).sum =
      (st.strategyMap.map (fun p => p.2.total)).sum + l.length := by
  induction l generalizing st with
  | nil => simp
  | cons t rest ih =>
    rw [List.foldl_cons, ih, aggStep_strat_sum]
    simp only [List.length_cons]
    omega

/-- The holding-bucket counts after the loop sum to the number of
processed trades. -/
lemma foldl_bucket_sum (l : List TradeRecord) (st : AggState) :
    ((l.foldl aggStep st).holdingBuckets.map (fun p => p.2)).sum =
      (st.holdingBuckets.map (fun p => p.2)).sum + l.length := by
  induction l generalizing st with
  | nil => simp
  | cons t rest ih =>
    rw [List.foldl_cons, ih, aggStep_buckets]
    have key := jsMapSet_sum_weight (fun n : ℕ => n) 0 rfl
      (bucketHoldingPeriod (holdDaysOf t))
      ((jsMapGet (bucketHoldingPeriod (holdDaysOf t)) st.holdingBuckets).getD 0 + 1)
      st.holdingBuckets
    simp only [] at key
    simp only [List.length_cons]
    omega

/-- Every bucket label produced by the assignment is one of the four
fixed labels. -/
lemma bucketHoldingPeriod_mem (d : ℤ) : bucketHoldingPeriod d ∈ bucketLabels := by
  unfold bucketHoldingPeriod bucketLabels
  split_ifs <;> simp

/-- The holding-bucket map after the loop has distinct keys, all among
the four fixed labels. -/
lemma foldl_buckets_inv (l : List TradeRecord) (st : AggState)
    (hnd : (st.holdingBuckets.map Prod.fst).Nodup)
    (hsub : ∀ p ∈ st.holdingBuckets, p.1 ∈ bucketLabels) :
    ((l.foldl aggStep st).holdingBuckets.map Prod.fst).Nodup ∧
    (∀ p ∈ (l.foldl aggStep st).holdingBuckets, p.1 ∈ bucketLabels) := by
  induction l generalizing st with
  | nil => exact ⟨hnd, hsub⟩
  | cons t rest ih =>
    rw [List.foldl_cons]
    apply ih
    · rw [aggStep_buckets]
      exact jsMapSet_keys_nodup _ _ _ hnd
    · rw [aggStep_buckets]
      intro p hp
      rcases jsMapSet_mem hp with h | h
      · rw [h]
        exact bucketHoldingPeriod_mem _
      · exact hsub p h

/-- Claim C6: every closed trade lands in exactly one strategy group
and exactly one holding bucket, so the strategy-breakdown totals and
the holding-period counts each sum to the closed-trade count. -/
theorem claim_C6_partition (trades : List TradeRecord) (now : ℤ) :
    ((calculateAnalyticsSnapshot trades now).strategyBreakdown.map (fun m => m.total)).sum =
      (calculateAnalyticsSnapshot trades now).totals.closedTrades ∧
    ((calculateAnalyticsSnapshot trades now).holdingPeriods.map (fun b => b.count)).sum =
      (calculateAnalyticsSnapshot trades now).totals.closedTrades := by
  constructor
  · rw [calc_strategyBreakdown, calc_closedTrades]
    have hperm :=
      ((jsStableSort_perm (fun a b => decide (b.total ≤ a.total))
        ((aggOf trades).strategyMap.map (fun p =>
          ({ strategy := p.1, total := p.2.total, wins := p.2.wins, losses := p.2.losses,
             averagePnl := if p.2.total = 0 then 0
               else round2 (p.2.pnlSum / p.2.total) } : StrategyMetric)))).map
        (fun m => m.total)).sum_eq
    rw [hperm, List.map_map]
    have hcomp : ((fun m : StrategyMetric => m.total) ∘ (fun p : StrategyKey × StratStats =>
        ({ strategy := p.1, total := p.2.total, wins := p.2.wins, losses := p.2.losses,
           averagePnl := if p.2.total = 0 then 0
             else round2 (p.2.pnlSum / p.2.total) } : StrategyMetric))) =
        (fun p : StrategyKey × StratStats => p.2.total) := rfl
    rw [hcomp]
    have hsum := foldl_strat_sum (closedOf trades) initAggState
    simp only [initAggState, List.map_nil, List.sum_nil, Nat.zero_add] at hsum
    rw [aggOf]
    exact hsum
  · rw [calc_holdingPeriods, calc_closedTrades, List.map_map]
    have hinv := foldl_buckets_inv (closedOf trades) initAggState (by simp [initAggState])
      (by simp [initAggState])
    have hlnd : bucketLabels.Nodup := by decide
    have hcover := sum_labels_getD bucketLabels hlnd (aggOf trades).holdingBuckets
      hinv.1 hinv.2
    have hsum := foldl_bucket_sum (closedOf trades) initAggState
    simp only [initAggState, List.map_nil, List.sum_nil, Nat.zero_add] at hsum
    have hcomp : ((fun b : HoldingBucket => b.count) ∘ (fun bucket =>
        ({ bucket := bucket,
           count := (jsMapGet bucket (aggOf trades).holdingBuckets).getD 0 } : HoldingBucket))) =
        (fun bucket => (jsMapGet bucket (aggOf trades).holdingBuckets).getD 0) := rfl
    rw [hcomp, hcover, aggOf]
    exact hsum

/-- Unfolding lemma: the reported win rate of a snapshot. -/
lemma calc_winRate (trades : List TradeRecord) (now : ℤ) :
    (calculateAnalyticsSnapshot trades now).totals.winRate =
      round2 ((if (closedOf trades).length = 0 then 0
        else ((aggOf trades).totals.wins : ℚ) / ((closedOf trades).length : ℚ)) * 100) := rfl

/-- Unfolding lemma: the reported average profit of a snapshot. -/
lemma calc_averagePnl (trades : List TradeRecord) (now : ℤ) :
    (calculateAnalyticsSnapshot trades now).totals.averagePnl =
      round2 (if (closedOf trades).length = 0 then 0
        else (aggOf trades).totals.pnlSum / ((closedOf trades).length : ℚ)) := rfl

/-- Unfolding lemma: the reported expectancy of a snapshot. -/
lemma calc_expectancy (trades : List TradeRecord) (now : ℤ) :
    (calculateAnalyticsSnapshot trades now).totals.expectancy =
      round2 ((if (aggOf trades).totals.wins = 0 then 0
          else (aggOf trades).totals.winPnlSum / ((aggOf trades).totals.wins : ℚ)) *
        (if (closedOf trades).length = 0 then 0
          else ((aggOf trades).totals.wins : ℚ) / ((closedOf trades).length : ℚ)) -
        (if (aggOf trades).totals.losses = 0 then 0
          else (aggOf trades).totals.lossPnlSum / ((aggOf trades).totals.losses : ℚ)) *
        (1 - (if (closedOf trades).length = 0 then 0
          else ((aggOf trades).totals.wins : ℚ) / ((closedOf trades).length : ℚ)))) := rfl

/-- A closed trade with profit 100, for the spec example. -/
def tradePlus100 : TradeRecord :=
  { symbol := usrA, strategy := none, status := .isClosed, openedAt := .valid 0,
    closedAt := some (.valid 0), netCredit := some 100, netDebit := none, legs := [] }

/-- A closed trade with loss 40 on the same day, for the spec example. -/
def tradeMinus40 : TradeRecord :=
  { symbol := usrA, strategy := none, status := .isClosed, openedAt := .valid 0,
    closedAt := some (.valid 0), netCredit := none, netDebit := some 40, legs := [] }

/-- Claim C5: the reported win rate is wins over closed count times one
hundred (zero with no closed trades), wins counting strictly positive
profit; expectancy is avgWin times the win fraction minus avgLoss times
the loss fraction, avgWin and avgLoss being the means of the strictly
positive subset and of the loss magnitudes of the strictly negative
subset (zero when empty), the win fraction being wins over closed count
(the unrounded winRate over one hundred); and the worked example with
profits 100 and -40 yields winRate 50, averagePnl 30, expectancy 30. -/
theorem claim_C5_totals (trades : List TradeRecord) (now : ℤ) :
    ((calculateAnalyticsSnapshot trades now).totals.winRate =
      round2 (if (closedOf trades).length = 0 then 0
        else (((closedOf trades).filter (fun t => decide (0 < tradePnl t))).length : ℚ) /
          ((closedOf trades).length : ℚ) * 100)) ∧
    ((calculateAnalyticsSnapshot trades now).totals.averagePnl =
      round2 (if (closedOf trades).length = 0 then 0
        else ((closedOf trades).map tradePnl).sum / ((closedOf trades).length : ℚ))) ∧
    ((calculateAnalyticsSnapshot trades now).totals.expectancy =
      round2
        ((if ((closedOf trades).filter (fun t => decide (0 < tradePnl t))).length = 0 then 0
          else (((closedOf trades).filter (fun t => decide (0 < tradePnl t))).map tradePnl).sum /
            ((((closedOf trades).filter (fun t => decide (0 < tradePnl t))).length : ℕ) : ℚ)) *
        (if (closedOf trades).length = 0 then 0
          else ((((closedOf trades).filter (fun t => decide (0 < tradePnl t))).length : ℕ) : ℚ) /
            ((closedOf trades).length : ℚ)) -
        (if ((closedOf trades).filter (fun t => decide (tradePnl t < 0))).length = 0 then 0
          else (((closedOf trades).filter (fun t => decide (tradePnl t < 0))).map
              (fun t => |tradePnl t|)).sum /
            ((((closedOf trades).filter (fun t => decide (tradePnl t < 0))).length : ℕ) : ℚ)) *
        (1 - (if (closedOf trades).length = 0 then 0
          else ((((closedOf trades).filter (fun t => decide (0 < tradePnl t))).length : ℕ) : ℚ) /
            ((closedOf trades).length : ℚ))))) ∧
    ((calculateAnalyticsSnapshot [tradePlus100, tradeMinus40] 0).totals.winRate = 50 ∧
     (calculateAnalyticsSnapshot [tradePlus100, tradeMinus40] 0).totals.averagePnl = 30 ∧
     (calculateAnalyticsSnapshot [tradePlus100, tradeMinus40] 0).totals.expectancy = 30) := by
  have hw : (aggOf trades).totals.wins =
      ((closedOf trades).filter (fun t => decide (0 < tradePnl t))).length := by
    have h := (foldl_totals (closedOf trades) initAggState).1
    simpa [initAggState, List.countP_eq_length_filter] using h
  have hl : (aggOf trades).totals.losses =
      ((closedOf trades).filter (fun t => decide (tradePnl t < 0))).length := by
    have h := (foldl_totals (closedOf trades) initAggState).2.1
    simpa [initAggState, List.countP_eq_length_filter] using h
  have hp : (aggOf trades).totals.pnlSum = ((closedOf trades).map tradePnl).sum := by
    have h := (foldl_totals (closedOf trades) initAggState).2.2.1
    simpa [initAggState] using h
  have hwp : (aggOf trades).totals.winPnlSum =
      (((closedOf trades).filter (fun t => decide (0 < tradePnl t))).map tradePnl).sum := by
    have h := (foldl_totals (closedOf trades) initAggState).2.2.2.2.2.1
    simpa [initAggState] using h
  have hlp : (aggOf trades).totals.lossPnlSum =
      (((closedOf trades).filter (fun t => decide (tradePnl t < 0))).map
        (fun t => |tradePnl t|)).sum := by
    have h := (foldl_totals (closedOf trades) initAggState).2.2.2.2.2.2
    simpa [initAggState] using h
  refine ⟨?_, ?_, ?_, ?_⟩
  · rw [calc_winRate, hw]
    by_cases hn : (closedOf trades).length = 0
    · simp [hn]
    · simp [hn]
  · rw [calc_averagePnl, hp]
  · rw [calc_expectancy, hw, hl, hwp, hlp]
  · norm_num [calculateAnalyticsSnapshot, aggStep, initAggState, tradePnl, tradeBasis,
      daysBetween, jsRound, MS_PER_DAY, bucketHoldingPeriod, classifyStrategy,
      jsMapGet, jsMapSet, jsStableSort, jsInsert, tradeLe, tradeDateKey,
      equityFold, round2, bucketLabels, JDate.getTime, Option.getD, Int.floor_eq_iff,
      tradePlus100, tradeMinus40]

/-- The date comparator on parsed dates: defined (non-NaN) on both
sides and nondecreasing; the equity-curve trade comparator is this
relation on the effective dates. -/
def jdateLeB (a b : JDate) : Bool :=
  match a.getTime, b.getTime with
  | some x, some y => decide (x ≤ y)
  | _, _ => false

/-- Membership after an insert: the new element or an old one. -/
lemma jsInsert_mem {α : Type} {le : α → α → Bool} {a x : α} {l : List α}
    (h : x ∈ jsInsert le a l) : x = a ∨ x ∈ l := by
  have := (jsInsert_perm le a l).mem_iff.mp h
  simpa using this

/-- Inserting into a sorted list keeps it sorted, given totality and
transitivity of the relation on the elements involved. -/
lemma jsInsert_pairwise {α : Type} {le : α → α → Bool} {a : α} {l : List α}
    (htot : ∀ b ∈ l, le a b = true ∨ le b a = true)
    (htrans : ∀ b ∈ l, ∀ c ∈ l, le a b = true → le b c = true → le a c = true)
    (hl : l.Pairwise (fun x y => le x y = true)) :
    (jsInsert le a l).Pairwise (fun x y => le x y = true) := by
  induction l with
  | nil => simp [jsInsert]
  | cons b t ih =>
    rw [List.pairwise_cons] at hl
    unfold jsInsert
    by_cases hab : le a b = true
    · rw [if_pos hab]
      rw [List.pairwise_cons]
      refine ⟨?_, ?_⟩
      · intro x hx
        rcases List.mem_cons.mp hx with rfl | hx
        · exact hab
        · exact htrans b (List.mem_cons_self _ _) x (List.mem_cons_of_mem _ hx)
            hab (hl.1 x hx)
      · rw [List.pairwise_cons]
        exact ⟨hl.1, hl.2⟩
    · rw [if_neg hab]
      rw [List.pairwise_cons]
      refine ⟨?_, ?_⟩
      · intro x hx
        rcases jsInsert_mem hx with rfl | hx
        · rcases htot b (List.mem_cons_self _ _) with h | h
          · exact absurd h hab
          · exact h
        · exact hl.1 x hx
      · exact ih
          (fun c hc => htot c (List.mem_cons_of_mem _ hc))
          (fun c hc d hd => htrans c (List.mem_cons_of_mem _ hc) d (List.mem_cons_of_mem _ hd))
          hl.2

/-- The stable sort is sorted, given totality and transitivity of the
relation on the list members. -/
lemma jsStableSort_pairwise {α : Type} {le : α → α → Bool} (l : List α)
    (htot : ∀ a ∈ l, ∀ b ∈ l, le a b = true ∨ le b a = true)
    (htrans : ∀ a ∈ l, ∀ b ∈ l, ∀ c ∈ l,
      le a b = true → le b c = true → le a c = true) :
    (jsStableSort le l).Pairwise (fun x y => le x y = true) := by
  induction l with
  | nil => simp [jsStableSort]
  | cons a t ih =>
    unfold jsStableSort
    have hmem : ∀ x ∈ jsStableSort le t, x ∈ t :=
      fun x hx => (jsStableSort_perm le t).mem_iff.mp hx
    apply jsInsert_pairwise
    · intro b hb
      exact htot a (List.mem_cons_self _ _) b (List.mem_cons_of_mem _ (hmem b hb))
    · intro b hb c hc
      exact htrans a (List.mem_cons_self _ _) b (List.mem_cons_of_mem _ (hmem b hb))
        c (List.mem_cons_of_mem _ (hmem c hc))
    · exact ih
        (fun x hx y hy => htot x (List.mem_cons_of_mem _ hx) y (List.mem_cons_of_mem _ hy))
        (fun x hx y hy z hz => htrans x (List.mem_cons_of_mem _ hx)
          y (List.mem_cons_of_mem _ hy) z (List.mem_cons_of_mem _ hz))

/-- The equity curve emits one point per trade. -/
lemma equityFold_length (c : ℚ) (l : List TradeRecord) :
    (equityFold c l).length = l.length := by
  induction l generalizing c with
  | nil => rfl
  | cons t rest ih => simp [equityFold, ih]

/-- The emitted dates are the effective dates of the trades in order. -/
lemma equityFold_map_date (c : ℚ) (l : List TradeRecord) :
    (equityFold c l).map (fun p => p.date) =
      l.map (fun t => t.closedAt.getD t.openedAt) := by
  induction l generalizing c with
  | nil => rfl
  | cons t rest ih => simp [equityFold, ih]

/-- Each emitted point carries the rounded running-sum value. -/
lemma equityFold_get (l : List TradeRecord) (c : ℚ) (i : ℕ)
    (hi : i < (equityFold c l).length) :
    ((equityFold c l).get ⟨i, hi⟩).cumulativePnl =
      round2 (c + ((l.take (i + 1)).map tradePnl).sum) := by
  induction l generalizing c i with
  | nil => simp [equityFold] at hi
  | cons t rest ih =>
    cases i with
    | zero => simp [equityFold]
    | succ j =>
      have hj : j < (equityFold (c + tradePnl t) rest).length := by
        have := hi
        simp only [equityFold, List.length_cons] at this
        omega
      have hrec := ih (c + tradePnl t) j hj
      have hget : ((equityFold c (t :: rest)).get ⟨j + 1, hi⟩) =
          ((equityFold (c + tradePnl t) rest).get ⟨j, hj⟩) := rfl
      rw [hget, hrec, List.take_succ_cons, List.map_cons, List.sum_cons]
      ring_nf

/-- Rounding at two decimals moves a value by at most half a cent. -/
lemma round2_abs_le (x : ℚ) : |round2 x - x| ≤ 1 / 200 := by
  unfold round2
  rw [abs_le]
  constructor
  · have h := Int.lt_floor_add_one (x * 100 + 1 / 2)
    nlinarith [h]
  · have h := Int.floor_le (x * 100 + 1 / 2)
    nlinarith [h]

/-- The total rounded once differs from the rounded mean scaled back up
by at most (n + 1) half-cents. -/
lemma round2_scale_bound (S : ℚ) (n : ℕ) (hn : n ≠ 0) :
    |round2 S - round2 (S / n) * n| ≤ ((n : ℚ) + 1) / 200 := by
  have h1 := round2_abs_le S
  have h2 := round2_abs_le (S / n)
  have hn0 : (0 : ℚ) < n := by exact_mod_cast Nat.pos_of_ne_zero hn
  have key : round2 S - round2 (S / n) * n =
      (round2 S - S) - (round2 (S / n) - S / n) * n := by
    field_simp
  rw [key]
  have htri : |(round2 S - S) - (round2 (S / n) - S / n) * n| ≤
      |round2 S - S| + |(round2 (S / n) - S / n) * n| := by
    have := abs_add (round2 S - S) (-((round2 (S / n) - S / n) * n))
    simpa [sub_eq_add_neg] using this
  have hmul : |(round2 (S / n) - S / n) * n| = |round2 (S / n) - S / n| * n := by
    rw [abs_mul, abs_of_nonneg hn0.le]
  have hscaled : |round2 (S / n) - S / n| * n ≤ (1 / 200) * n := by
    apply mul_le_mul_of_nonneg_right h2 hn0.le
  calc |(round2 S - S) - (round2 (S / n) - S / n) * n|
      ≤ |round2 S - S| + |(round2 (S / n) - S / n) * n| := htri
    _ ≤ 1 / 200 + (1 / 200) * n := by rw [hmul]; exact add_le_add h1 hscaled
    _ = ((n : ℚ) + 1) / 200 := by ring

/-- The aggregated profit sum equals the sum over the closed list. -/
lemma agg_pnlSum (trades : List TradeRecord) :
    (aggOf trades).totals.pnlSum = ((closedOf trades).map tradePnl).sum := by
  have h := (foldl_totals (closedOf trades) initAggState).2.2.1
  simpa [initAggState] using h

/-- Claim C4 as stated is false on the code: with a winning then a
losing closed trade, the emitted cumulative values are 100 then 60, so
the equity-curve values are not non-decreasing. -/
theorem claim_C4_counterexample :
    ¬ ((calculateAnalyticsSnapshot [tradePlus100, tradeMinus40] 0).equityCurve.Pairwise
      (fun p q => p.cumulativePnl ≤ q.cumulativePnl)) := by
  have hcurve : (calculateAnalyticsSnapshot [tradePlus100, tradeMinus40] 0).equityCurve =
      [⟨.valid 0, 100⟩, ⟨.valid 0, 60⟩] := by
    rw [calc_equityCurve]
    norm_num [closedOf, jsStableSort, jsInsert, tradeLe, tradeDateKey, equityFold,
      tradePnl, round2, tradePlus100, tradeMinus40, JDate.getTime, Option.getD,
      Int.floor_eq_iff]
  rw [hcurve]
  intro h
  rw [List.pairwise_cons] at h
  have h60 := h.1 ⟨.valid 0, 60⟩ (by simp)
  norm_num at h60

/-- Claim C4 amended: when every closed trade has a parseable effective
date, the equity curve has one point per closed trade, point i carries
the two-decimal rounding of the running sum of per-trade profit over the
date-sorted closed trades, the emitted dates are non-decreasing, and
the last point equals the rounded total, which is within
(n + 1) / 200 of averagePnl times the closed count. -/
theorem claim_C4_amended (trades : List TradeRecord) (now : ℤ)
    (hvalid : ∀ t ∈ closedOf trades, ∃ ms, tradeDateKey t = some ms) :
    ((calculateAnalyticsSnapshot trades now).equityCurve.length =
      (closedOf trades).length) ∧
    (∀ (i : ℕ) (hi : i < (calculateAnalyticsSnapshot trades now).equityCurve.length),
      ((calculateAnalyticsSnapshot trades now).equityCurve.get ⟨i, hi⟩).cumulativePnl =
        round2 ((((jsStableSort tradeLe (closedOf trades)).take (i + 1)).map tradePnl).sum)) ∧
    (((calculateAnalyticsSnapshot trades now).equityCurve.map (fun p => p.date)).Pairwise
      (fun a b => jdateLeB a b = true)) ∧
    (∀ hpos : 0 < (calculateAnalyticsSnapshot trades now).equityCurve.length,
      ((calculateAnalyticsSnapshot trades now).equityCurve.get
          ⟨(calculateAnalyticsSnapshot trades now).equityCurve.length - 1, by omega⟩).cumulativePnl =
        round2 (((closedOf trades).map tradePnl).sum) ∧
      |((calculateAnalyticsSnapshot trades now).equityCurve.get
          ⟨(calculateAnalyticsSnapshot trades now).equityCurve.length - 1, by omega⟩).cumulativePnl -
          (calculateAnalyticsSnapshot trades now).totals.averagePnl *
            ((closedOf trades).length : ℚ)| ≤
        (((closedOf trades).length : ℚ) + 1) / 200) := by
  have ha : (calculateAnalyticsSnapshot trades now).equityCurve.length =
      (closedOf trades).length := by
    rw [calc_equityCurve, equityFold_length]
    exact (jsStableSort_perm _ _).length_eq
  have hb : ∀ (i : ℕ) (hi : i < (calculateAnalyticsSnapshot trades now).equityCurve.length),
      ((calculateAnalyticsSnapshot trades now).equityCurve.get ⟨i, hi⟩).cumulativePnl =
        round2 ((((jsStableSort tradeLe (closedOf trades)).take (i + 1)).map tradePnl).sum) := by
    intro i hi
    have hi2 : i < (equityFold 0 (jsStableSort tradeLe (closedOf trades))).length := hi
    have h := equityFold_get (jsStableSort tradeLe (closedOf trades)) 0 i hi2
    rw [zero_add] at h
    exact h
  refine ⟨ha, hb, ?_, ?_⟩
  · have hpw : (jsStableSort tradeLe (closedOf trades)).Pairwise
        (fun x y => tradeLe x y = true) := by
      apply jsStableSort_pairwise
      · intro a haa b hbb
        obtain ⟨x, hx⟩ := hvalid a haa
        obtain ⟨y, hy⟩ := hvalid b hbb
        unfold tradeLe
        rw [hx, hy]
        rcases le_total x y with h | h
        · left; simpa using h
        · right; simpa using h
      · intro a haa b hbb c hcc hab hbc
        obtain ⟨x, hx⟩ := hvalid a haa
        obtain ⟨y, hy⟩ := hvalid b hbb
        obtain ⟨z, hz⟩ := hvalid c hcc
        unfold tradeLe at hab hbc ⊢
        rw [hx, hy] at hab
        rw [hy, hz] at hbc
        rw [hx, hz]
        simp only [decide_eq_true_eq] at hab hbc ⊢
        exact le_trans hab hbc
    rw [calc_equityCurve, equityFold_map_date, List.pairwise_map]
    exact hpw
  · intro hpos
    have hn : (closedOf trades).length ≠ 0 := by
      rw [ha] at hpos
      omega
    have hi : (calculateAnalyticsSnapshot trades now).equityCurve.length - 1 <
        (calculateAnalyticsSnapshot trades now).equityCurve.length := by omega
    have hlast := hb _ hi
    have hslen : (jsStableSort tradeLe (closedOf trades)).length =
        (closedOf trades).length := (jsStableSort_perm _ _).length_eq
    have htake : (jsStableSort tradeLe (closedOf trades)).take
        ((calculateAnalyticsSnapshot trades now).equityCurve.length - 1 + 1) =
        jsStableSort tradeLe (closedOf trades) := by
      have hidx : (calculateAnalyticsSnapshot trades now).equityCurve.length - 1 + 1 =
          (jsStableSort tradeLe (closedOf trades)).length := by
        rw [hslen, ← ha]
        omega
      rw [hidx, List.take_length]
    have hsum : ((jsStableSort tradeLe (closedOf trades)).map tradePnl).sum =
        ((closedOf trades).map tradePnl).sum :=
      ((jsStableSort_perm tradeLe (closedOf trades)).map tradePnl).sum_eq
    rw [htake, hsum] at hlast
    refine ⟨hlast, ?_⟩
    rw [hlast]
    have havg : (calculateAnalyticsSnapshot trades now).totals.averagePnl =
        round2 (((closedOf trades).map tradePnl).sum / ((closedOf trades).length : ℚ)) := by
      rw [calc_averagePnl, agg_pnlSum, if_neg hn]
    rw [havg]
    exact round2_scale_bound _ _ hn

/-- Witness for the amended claim C4 at the two-trade example: two
points, in non-decreasing date order. -/
theorem claim_C4_amended_witness :
    (calculateAnalyticsSnapshot [tradePlus100, tradeMinus40] 0).equityCurve.length = 2 ∧
    (((calculateAnalyticsSnapshot [tradePlus100, tradeMinus40] 0).equityCurve.map
      (fun p => p.date)).Pairwise (fun a b => jdateLeB a b = true)) := by
  have hvalid : ∀ t ∈ closedOf [tradePlus100, tradeMinus40],
      ∃ ms, tradeDateKey t = some ms := by
    intro t ht
    simp only [closedOf, tradePlus100, tradeMinus40, List.filter, Option.isSome] at ht
    simp only [List.mem_cons, List.not_mem_nil, or_false] at ht
    rcases ht with rfl | rfl
    · exact ⟨0, rfl⟩
    · exact ⟨0, rfl⟩
  have h := claim_C4_amended [tradePlus100, tradeMinus40] 0 hvalid
  refine ⟨?_, h.2.2.1⟩
  rw [h.1]
  decide

end OptiScope

-- scratch checks
example : OptiScope.classifyStrategy
    { symbol := ("X"), strategy := none, status := .isOpen,
      openedAt := .valid 0, closedAt := none, netCredit := none, netDebit := none,
      legs := [] } = .other := by decide

example : OptiScope.round2 (1/3) = 33/100 := by norm_num [OptiScope.round2]

open OptiScope in
example :
    calculateAnalyticsSnapshot
      [{ symbol := ("X"), strategy := none, status := .isClosed,
         openedAt := .valid 0, closedAt := some (.valid (9 * 86400000)),
         netCredit := some 250, netDebit := none,
         legs := [{ legType := .put, position := .short, strike := 100,
                    expiry := ("2024-02-16"), quantity := 1, price := some 250 }] }] 7 =
    { generatedAt := 7
      totals :=
        { winRate := 100, averagePnl := 250, averagePnlPct := 100,
          expectancy := 250, averageHoldDays := 9, closedTrades := 1 }
      strategyBreakdown :=
        [{ strategy := .single, total := 1, wins := 1, losses := 0, averagePnl := 250 }]
      equityCurve := [{ date := .valid (9 * 86400000), cumulativePnl := 250 }]
      holdingPeriods :=
        [⟨("0-3d"), 0⟩, ⟨("4-7d"), 0⟩, ⟨("8-30d"), 1⟩, ⟨("31d+"), 0⟩] } := by
  norm_num [calculateAnalyticsSnapshot, aggStep, initAggState, tradePnl, tradeBasis,
    daysBetween, jsRound, MS_PER_DAY, bucketHoldingPeriod, classifyStrategy,
    jsMapGet, jsMapSet, jsStableSort, jsInsert, tradeLe, tradeDateKey,
    equityFold, round2, bucketLabels, JDate.getTime, Option.getD, Int.floor_eq_iff]
  decide
